import Mathlib

/-!
Shallow embedding of the `tsa-plugin-az` metric-collection core.

Two source variants exist: the current plugin (with a per-resource-type
metric-name table and average/minimum/maximum fallback) and a legacy
variant (whose normalization consults only `average`).  Pure fragments of
the TypeScript are translated directly; subprocess execution
(`shelljs.exec`), `JSON.parse` and `RegExp.test` are modelled as explicit
inputs/oracles, and `process.exit(code)` as the `RunResult.exited code`
outcome.  Raw data points come from `JSON.parse`, which can produce for a
field only: the field absent (`undefined`), `null`, or a number (never
`NaN`) — hence the three-valued `JSVal`.  Millisecond steps are modelled
as integers and numeric metric values as rationals.
-/

namespace TsaAz

/-- The `MetricType` enum of the source (the legacy variant uses the
`cpu`/`ram` subset of the same enum). -/
inductive MetricType where
  | cpu
  | ram
  | memory_percent
  | disk
deriving DecidableEq, Repr

/-- A JSON field value as seen by the point-mapping code: absent
(`undefined`), `null`, or a number.  `JSON.parse` cannot produce `NaN`,
so a present number is a rational. -/
inductive JSVal where
  | undefined
  | null
  | num (q : ℚ)
deriving DecidableEq, Repr

/-- One entry of the interval catalog built in `getValidInterval`:
a display string together with its `timestring(display, 'ms')`
millisecond duration. -/
structure IntervalEntry where
  display : String
  ms : Int
deriving DecidableEq, Repr

/-- The `validIntervals` array of `getValidInterval`, with each display
string resolved to milliseconds exactly as `timestring` resolves it. -/
def validIntervals : List IntervalEntry :=
  [⟨"1m", 60000⟩, ⟨"5m", 300000⟩, ⟨"15m", 900000⟩, ⟨"30m", 1800000⟩,
   ⟨"1h", 3600000⟩, ⟨"6h", 21600000⟩, ⟨"12h", 43200000⟩, ⟨"1d", 86400000⟩]

/-- The `reduce` of `getValidInterval`: starting from `validIntervals[0]`,
an entry replaces the current best only when strictly closer to `stepMS`
(`Math.abs(v.ms - stepMS) < Math.abs(best.ms - stepMS)`). -/
def closestInterval (stepMS : Int) : IntervalEntry :=
  validIntervals.foldl
    (fun best v =>
      if (v.ms - stepMS).natAbs < (best.ms - stepMS).natAbs then v else best)
    (validIntervals.headD ⟨"1m", 60000⟩)

/-- `getValidInterval` returns the display string of the closest match. -/
def getValidInterval (stepMS : Int) : String :=
  (closestInterval stepMS).display

/-- Absolute distance (in milliseconds) from a catalog entry's duration
to the requested step. -/
def distToStep (stepMS : Int) (e : IntervalEntry) : Nat :=
  (e.ms - stepMS).natAbs

/-- `transformValue` of the current variant: a RAM value (available bytes)
is divided by 1,000,000,000 to gigabytes; every other metric passes
through unchanged. -/
def transformValue (v : ℚ) (metric : MetricType) : ℚ :=
  if metric = MetricType.ram then v / 1000000000 else v

/-- `IMetricDataPoint` as delivered by the provider: any of the three
value fields may be absent or null. -/
structure RawPoint where
  average : JSVal
  maximum : JSVal
  minimum : JSVal
  timeStamp : String
deriving DecidableEq, Repr

/-- JavaScript's `??` (nullish coalescing): `undefined` and `null` fall
through to the right operand, any other value is kept. -/
def coalesce (a b : JSVal) : JSVal :=
  match a with
  | .undefined => b
  | .null => b
  | v => v

/-- `mapTimeSeriesDataPoint`: reduce `average ?? minimum ?? maximum`; when
that value is neither `undefined` nor `null` (hence a number), emit
`(timeStamp, transformValue value metric)`, otherwise `null`.  The
timestamp is kept as the source string (`new Date(...)` is external
parsing of that same string). -/
def mapTimeSeriesDataPoint (point : RawPoint) (metricType : MetricType) :
    Option (String × ℚ) :=
  match coalesce point.average (coalesce point.minimum point.maximum) with
  | .num value => some (point.timeStamp, transformValue value metricType)
  | _ => none

/-- The per-resource series construction in `execute` (current variant):
map every raw point through `mapTimeSeriesDataPoint` and drop the `null`
results (`.filter((x) => !!x)` followed by the non-null cast). -/
def normalizeSeries (rawSeries : List RawPoint) (metricType : MetricType) :
    List (String × ℚ) :=
  (rawSeries.map (fun x => mapTimeSeriesDataPoint x metricType)).reduceOption

/-- The `metricNamesForResourceType` configuration table. -/
def metricNamesForResourceType : List (String × List (MetricType × String)) :=
  [("Microsoft.Compute/virtualMachines",
     [(MetricType.cpu, "Percentage CPU"),
      (MetricType.ram, "Available Memory Bytes")]),
   ("Microsoft.DBforMySQL/flexibleServers",
     [(MetricType.cpu, "cpu_percent"),
      (MetricType.memory_percent, "memory_percent"),
      (MetricType.disk, "storage_percent")])]

/-- The default resource type used when `options['resource-type']` is
absent. -/
def defaultResourceType : String := "Microsoft.Compute/virtualMachines"

/-- Outcome of a computation that may call `process.exit`. -/
inductive RunResult (α : Type) where
  | ok (a : α)
  | exited (code : Nat)
deriving DecidableEq, Repr

/-- Pure two-level lookup into the configuration table (the spec's
contract for the metric-name resolver): resource type, then metric. -/
def lookupMetricName (resourceType : String) (metricType : MetricType) :
    Option String :=
  ((metricNamesForResourceType.lookup resourceType).getD []).lookup metricType

/-- `mapMetricName`: default the resource type, look it up
(`metricNamesForResourceType[type] ?? {}`), look up the metric, and on a
falsy result (`undefined` or the empty string) report the unsupported
metric and `process.exit(1)`. -/
def mapMetricName (resourceType : Option String) (metricType : MetricType) :
    RunResult String :=
  let type := resourceType.getD defaultResourceType
  let map := (metricNamesForResourceType.lookup type).getD []
  match map.lookup metricType with
  | none => .exited 1
  | some metric => if metric = "" then .exited 1 else .ok metric

/-- The observable outcome of a `shelljs.exec` call: exit code plus the
captured output streams. -/
structure ExecResult where
  code : Int
  stdout : String
  stderr : String
deriving DecidableEq, Repr

/-- `execOrFail`: a non-zero exit code logs diagnostics and calls
`process.exit(1)`; otherwise the stdout is returned. -/
def execOrFail (res : ExecResult) : RunResult String :=
  if res.code ≠ 0 then .exited 1 else .ok res.stdout

/-- `execOrFailAsync`: identical outcome — on non-zero exit code the
process exits with 1 before the promise can resolve. -/
def execOrFailAsync (res : ExecResult) : RunResult String :=
  if res.code ≠ 0 then .exited 1 else .ok res.stdout

/-- An `IAZResource` record parsed from `az resource list` output. -/
structure Resource where
  id : String
  name : String
deriving DecidableEq, Repr

/-- The name-filter predicate inside `getVMIds`: a falsy `options.filter`
(absent or empty string) keeps everything, otherwise
`new RegExp(filter).test(name)` decides — `test` is the oracle for
JavaScript regular-expression matching. -/
def matchesFilter (filter : Option String) (test : String → String → Bool)
    (name : String) : Bool :=
  match filter with
  | none => true
  | some p => if p = "" then true else test p name

/-- The client-side part of `getVMIds`: filter the listed resources by
name and re-pack each as `{id, name}`. -/
def filterResources (listed : List Resource) (filter : Option String)
    (test : String → String → Bool) : List Resource :=
  (listed.filter (fun x => matchesFilter filter test x.name)).map
    (fun r => ⟨r.id, r.name⟩)

/-- `getVMIds`: run the enumeration command through `execOrFail`, parse
its JSON payload (`parseList` models `JSON.parse` on the success path),
then filter client-side. -/
def getVMIds (listRes : ExecResult) (parseList : String → List Resource)
    (filter : Option String) (test : String → String → Bool) :
    RunResult (List Resource) :=
  match execOrFail listRes with
  | .exited c => .exited c
  | .ok out => .ok (filterResources (parseList out) filter test)

/-- One element of the `timeseries` array of a metrics payload. -/
structure TimeseriesEntry where
  data : List RawPoint
deriving DecidableEq, Repr

/-- One element of the `value` array: its `timeseries` field may be
absent (`none`). -/
structure PayloadValueEntry where
  timeseries : Option (List TimeseriesEntry)
deriving DecidableEq, Repr

/-- The parsed `az monitor metrics list` payload. -/
structure Payload where
  value : List PayloadValueEntry
deriving DecidableEq, Repr

/-- A thrown JavaScript runtime error. -/
inductive JsError where
  | typeError
deriving DecidableEq, Repr

/-- The payload handling of `getTimeSeries`:
`const { timeseries } = data.value[0] || {};` followed by
`timeseries.length > 0 ? timeseries[0].data : null`.  When `value` is
empty, the destructured object is `{}` and `timeseries` is `undefined`,
so `timeseries.length` throws a `TypeError`; likewise when `value[0]`
has no `timeseries` field. -/
def getTimeSeriesCore (data : Payload) :
    Except JsError (Option (List RawPoint)) :=
  match data.value.head? with
  | none => .error .typeError
  | some entry =>
      match entry.timeseries with
      | none => .error .typeError
      | some timeseries =>
          .ok (if timeseries.length > 0
               then some ((timeseries.headD ⟨[]⟩).data)
               else none)

/-- `getTimeSeries` at run level: the metrics-query subprocess through
`execOrFailAsync`, then the payload handling; a thrown `TypeError`
propagates to `execute`'s catch block, which calls `process.exit(1)`. -/
def getTimeSeriesRun (res : ExecResult) (parse : String → Payload) :
    RunResult (Option (List RawPoint)) :=
  match execOrFailAsync res with
  | .exited c => .exited c
  | .ok out =>
      match getTimeSeriesCore (parse out) with
      | .error _ => .exited 1
      | .ok ts => .ok ts

/-- A JavaScript object write `data[label] = series`; later writes to the
same label overwrite earlier ones. -/
def writeLabel (m : String → Option (List (String × ℚ))) (label : String)
    (series : List (String × ℚ)) : String → Option (List (String × ℚ)) :=
  fun k => if k = label then some series else m k

/-- The aggregation loop of `execute` (current variant) from an arbitrary
starting map: for each resource, a non-null fetched series is normalized
and written under the resource's name; a null fetch writes nothing. -/
def buildFrom (m : String → Option (List (String × ℚ)))
    (results : List (Resource × Option (List RawPoint)))
    (metricType : MetricType) : String → Option (List (String × ℚ)) :=
  results.foldl
    (fun m r =>
      match r.2 with
      | some rawSeries => writeLabel m r.1.name (normalizeSeries rawSeries metricType)
      | none => m)
    m

/-- The aggregation in `execute`: the loop started from the empty object
`const data: ILabeledTimeSeriesData = {}`. -/
def buildData (results : List (Resource × Option (List RawPoint)))
    (metricType : MetricType) : String → Option (List (String × ℚ)) :=
  buildFrom (fun _ => none) results metricType

/-- The fan-out of `execute`, projected to its run-level outcome: every
resource's fetch runs through `getTimeSeriesRun`; any `process.exit`
terminates the whole run. -/
def fetchAll (vms : List (Resource × ExecResult)) (parse : String → Payload) :
    RunResult (List (Resource × Option (List RawPoint))) :=
  match vms with
  | [] => .ok []
  | (vm, res) :: rest =>
      match getTimeSeriesRun res parse with
      | .exited c => .exited c
      | .ok ts =>
          match fetchAll rest parse with
          | .exited c => .exited c
          | .ok l => .ok ((vm, ts) :: l)

/-- `execute`, projected to its result map: metric-name resolution first,
then resource listing, then the fan-out and aggregation.  `fetchExec`
gives each resource's metrics-query subprocess outcome. -/
def executeRun (resourceType : Option String) (metricType : MetricType)
    (listRes : ExecResult) (parseList : String → List Resource)
    (filter : Option String) (test : String → String → Bool)
    (fetchExec : String → ExecResult) (parsePayload : String → Payload) :
    RunResult (String → Option (List (String × ℚ))) :=
  match mapMetricName resourceType metricType with
  | .exited c => .exited c
  | .ok _ =>
      match getVMIds listRes parseList filter test with
      | .exited c => .exited c
      | .ok vms =>
          match fetchAll (vms.map (fun vm => (vm, fetchExec vm.id))) parsePayload with
          | .exited c => .exited c
          | .ok results => .ok (buildData results metricType)

/-- The progress events after the initial one: each completion increments
`completedQueries` and immediately logs `(completedQueries, totalQueries)`. -/
def progressSteps (total : Nat) : Nat → List Resource → List (Nat × Nat)
  | _, [] => []
  | completed, _ :: rest =>
      (completed + 1, total) :: progressSteps total (completed + 1) rest

/-- The full sequence of progress events of a run: `logProgress()` fires
once before the fan-out with `(0, total)`, then once after each fetch
completes, in completion order. -/
def progressTrace (vmIds : List Resource) (completionOrder : List Resource) :
    List (Nat × Nat) :=
  (0, vmIds.length) :: progressSteps vmIds.length 0 completionOrder

/-- A value produced by the legacy per-point pipeline, where an absent
`average` can flow through arithmetic: JavaScript yields `NaN` for
`undefined / 1e9` and `0` for `null / 1e9`. -/
inductive LegacyVal where
  | undefined
  | null
  | nan
  | num (q : ℚ)
deriving DecidableEq, Repr

/-- The legacy `transformValue` applied to whatever the `average` field
holds at runtime: for `ram` the JavaScript division `v / 1_000_000_000`
(with `undefined ↦ NaN` and `null ↦ 0` coercions), otherwise the value
unchanged. -/
def legacyTransformValue (v : JSVal) (metric : MetricType) : LegacyVal :=
  if metric = MetricType.ram then
    match v with
    | .num a => .num (a / 1000000000)
    | .null => .num 0
    | .undefined => .nan
  else
    match v with
    | .num a => .num a
    | .null => .null
    | .undefined => .undefined

/-- The legacy variant's per-resource series construction in `execute`:
`.filter((x) => x.average !== null)` then
`.map((x) => [new Date(x.timeStamp), transformValue(x.average, metricType)])`. -/
def legacyNormalize (rawSeries : List RawPoint) (metricType : MetricType) :
    List (String × LegacyVal) :=
  (rawSeries.filter (fun x => x.average ≠ JSVal.null)).map
    (fun x => (x.timeStamp, legacyTransformValue x.average metricType))

/-- The `reduce` of `getValidInterval` keeps its seed unless an entry is
strictly closer, so it lands on the first minimizer of the distance `d`
among `b :: l`: the candidate list decomposes around the result, with
every entry before the result strictly farther from the step. -/
theorem foldl_first_min (d : IntervalEntry → Nat) :
    ∀ (l : List IntervalEntry) (b : IntervalEntry),
      ∃ l₁ l₂,
        b :: l = l₁ ++ (l.foldl (fun best v => if d v < d best then v else best) b) :: l₂ ∧
        (∀ e ∈ b :: l, d (l.foldl (fun best v => if d v < d best then v else best) b) ≤ d e) ∧
        (∀ x ∈ l₁, d (l.foldl (fun best v => if d v < d best then v else best) b) < d x) := by
  intro l
  induction l with
  | nil =>
      intro b
      exact ⟨[], [], rfl, by simp, by simp⟩
  | cons v rest ih =>
      intro b
      simp only [List.foldl_cons]
      by_cases hvb : d v < d b
      · simp only [if_pos hvb]
        obtain ⟨l₁, l₂, hdec, hmin, hstrict⟩ := ih v
        refine ⟨b :: l₁, l₂, by rw [List.cons_append, ← hdec], ?_, ?_⟩
        · intro e he
          rcases List.mem_cons.mp he with rfl | he'
          · exact le_trans (hmin v (List.mem_cons_self _ _)) (le_of_lt hvb)
          · exact hmin e he'
        · intro x hx
          rcases List.mem_cons.mp hx with rfl | hx'
          · exact lt_of_le_of_lt (hmin v (List.mem_cons_self _ _)) hvb
          · exact hstrict x hx'
      · simp only [if_neg hvb]
        obtain ⟨l₁, l₂, hdec, hmin, hstrict⟩ := ih b
        push_neg at hvb
        cases l₁ with
        | nil =>
            simp only [List.nil_append] at hdec
            injection hdec with h1 h2
            refine ⟨[], v :: rest, ?_, ?_, by simp⟩
            · rw [List.nil_append, ← h1]
            · intro e he
              rcases List.mem_cons.mp he with rfl | he'
              · exact hmin e (List.mem_cons_self _ _)
              · rcases List.mem_cons.mp he' with rfl | he''
                · exact le_trans (hmin b (List.mem_cons_self _ _)) hvb
                · exact hmin e (List.mem_cons_of_mem _ he'')
        | cons hd t =>
            rw [List.cons_append] at hdec
            injection hdec with h1 h2
            refine ⟨b :: v :: t, l₂,
              by rw [List.cons_append, List.cons_append, ← h2], ?_, ?_⟩
            · intro e he
              rcases List.mem_cons.mp he with rfl | he'
              · exact hmin e (List.mem_cons_self _ _)
              · rcases List.mem_cons.mp he' with rfl | he''
                · exact le_trans (hmin b (List.mem_cons_self _ _)) hvb
                · exact hmin e (List.mem_cons_of_mem _ he'')
            · intro x hx
              rcases List.mem_cons.mp hx with rfl | hx'
              · exact hstrict x (h1 ▸ List.mem_cons_self hd t)
              · rcases List.mem_cons.mp hx' with rfl | hx''
                · exact lt_of_lt_of_le (hstrict b (h1 ▸ List.mem_cons_self hd t)) hvb
                · exact hstrict x (List.mem_cons_of_mem _ hx'')

/-- C1: for every millisecond step, `getValidInterval` returns the display
string of a catalog entry whose duration has the smallest absolute
difference from the step among all of `validIntervals`; whenever another
entry is equally close (an exact midpoint), the returned entry's duration
is the smaller one, i.e. the earlier catalog entry wins; and the function
is total, always yielding a member of the catalog. -/
theorem getValidInterval_nearest (stepMS : Int) :
    closestInterval stepMS ∈ validIntervals ∧
    getValidInterval stepMS = (closestInterval stepMS).display ∧
    ∀ e ∈ validIntervals,
      distToStep stepMS (closestInterval stepMS) ≤ distToStep stepMS e ∧
      (distToStep stepMS e = distToStep stepMS (closestInterval stepMS) →
        (closestInterval stepMS).ms ≤ e.ms) := by
  obtain ⟨l₁, l₂, hdec, hmin, hstrict⟩ :=
    foldl_first_min (fun e => (e.ms - stepMS).natAbs) validIntervals
      (validIntervals.headD ⟨"1m", 60000⟩)
  have hc : closestInterval stepMS =
      validIntervals.foldl
        (fun best v =>
          if (fun e => (e.ms - stepMS).natAbs) v < (fun e => (e.ms - stepMS).natAbs) best
          then v else best)
        (validIntervals.headD ⟨"1m", 60000⟩) := rfl
  rw [← hc] at hdec hmin hstrict
  have hmem : closestInterval stepMS ∈ validIntervals.headD ⟨"1m", 60000⟩ :: validIntervals := by
    rw [hdec]; exact List.mem_append_right l₁ (List.mem_cons_self _ _)
  have hsort : List.Pairwise (fun a b => a.ms ≤ b.ms)
      (validIntervals.headD ⟨"1m", 60000⟩ :: validIntervals) := by decide
  refine ⟨?_, rfl, ?_⟩
  · rcases List.mem_cons.mp hmem with h | h
    · rw [h]; decide
    · exact h
  · intro e he
    have he' : e ∈ validIntervals.headD ⟨"1m", 60000⟩ :: validIntervals :=
      List.mem_cons_of_mem _ he
    refine ⟨hmin e he', ?_⟩
    intro htie
    rw [hdec] at he' hsort
    rcases List.mem_append.mp he' with h | h
    · exact absurd htie (ne_of_gt (hstrict e h))
    · rcases List.mem_cons.mp h with rfl | h'
      · exact le_refl _
      · exact ((List.pairwise_cons.mp (List.pairwise_append.mp hsort).2.1).1) e h'

/-- C7: a reduced RAM value is divided by 1,000,000,000 (bytes to
gigabytes); cpu, memory-percent and disk values pass through unchanged —
including the spec's examples 2,000,000,000 ↦ 2 and 42 ↦ 42. -/
theorem transformValue_spec (v : ℚ) :
    transformValue v MetricType.ram = v / 1000000000 ∧
    transformValue v MetricType.cpu = v ∧
    transformValue v MetricType.memory_percent = v ∧
    transformValue v MetricType.disk = v ∧
    transformValue 2000000000 MetricType.ram = 2 ∧
    transformValue 42 MetricType.cpu = 42 :=
  ⟨rfl, rfl, rfl, rfl, by norm_num [transformValue], rfl⟩

/-- C3: a raw point reduces to its `average` when present and non-null,
else its `minimum`, else its `maximum`; a point whose three value fields
are all absent or null maps to `null` and is dropped entirely from the
normalized series, which is the in-order concatenation of the per-point
results (`filterMap`), preserving input order. -/
theorem mapTimeSeriesDataPoint_spec (metricType : MetricType) :
    (∀ (p : RawPoint) (v : ℚ), p.average = JSVal.num v →
        mapTimeSeriesDataPoint p metricType = some (p.timeStamp, transformValue v metricType)) ∧
    (∀ (p : RawPoint) (v : ℚ),
        (p.average = JSVal.undefined ∨ p.average = JSVal.null) →
        p.minimum = JSVal.num v →
        mapTimeSeriesDataPoint p metricType = some (p.timeStamp, transformValue v metricType)) ∧
    (∀ (p : RawPoint) (v : ℚ),
        (p.average = JSVal.undefined ∨ p.average = JSVal.null) →
        (p.minimum = JSVal.undefined ∨ p.minimum = JSVal.null) →
        p.maximum = JSVal.num v →
        mapTimeSeriesDataPoint p metricType = some (p.timeStamp, transformValue v metricType)) ∧
    (∀ p : RawPoint,
        (p.average = JSVal.undefined ∨ p.average = JSVal.null) →
        (p.minimum = JSVal.undefined ∨ p.minimum = JSVal.null) →
        (p.maximum = JSVal.undefined ∨ p.maximum = JSVal.null) →
        mapTimeSeriesDataPoint p metricType = none) ∧
    (∀ rawSeries : List RawPoint,
        normalizeSeries rawSeries metricType
          = rawSeries.filterMap (fun x => mapTimeSeriesDataPoint x metricType)) := by
  refine ⟨?_, ?_, ?_, ?_, ?_⟩
  · intro p v h
    simp [mapTimeSeriesDataPoint, coalesce, h]
  · intro p v h1 h2
    rcases h1 with h1 | h1 <;> simp [mapTimeSeriesDataPoint, coalesce, h1, h2]
  · intro p v h1 h2 h3
    rcases h1 with h1 | h1 <;> rcases h2 with h2 | h2 <;>
      simp [mapTimeSeriesDataPoint, coalesce, h1, h2, h3]
  · intro p h1 h2 h3
    rcases h1 with h1 | h1 <;> rcases h2 with h2 | h2 <;> rcases h3 with h3 | h3 <;>
      simp [mapTimeSeriesDataPoint, coalesce, h1, h2, h3]
  · intro rawSeries
    simp [normalizeSeries, List.reduceOption, List.filterMap_map]

/-- C10: the legacy per-point pipeline keeps a raw point exactly when its
`average` is not `null` — so a point with `average` absent (`undefined`)
is retained, its value being the legacy transform of `undefined` (`NaN`
for ram, `undefined` otherwise) — and the `minimum`/`maximum` fields are
never consulted: two series agreeing on `(timeStamp, average)` normalize
identically. -/
theorem legacyNormalize_spec (metricType : MetricType) :
    (∀ p : RawPoint,
        legacyNormalize [p] metricType =
          if p.average = JSVal.null then []
          else [(p.timeStamp, legacyTransformValue p.average metricType)]) ∧
    (∀ l₁ l₂ : List RawPoint,
        legacyNormalize (l₁ ++ l₂) metricType =
          legacyNormalize l₁ metricType ++ legacyNormalize l₂ metricType) ∧
    (∀ p : RawPoint, p.average = JSVal.undefined →
        legacyNormalize [p] metricType =
          [(p.timeStamp, legacyTransformValue JSVal.undefined metricType)]) ∧
    legacyTransformValue JSVal.undefined MetricType.ram = LegacyVal.nan ∧
    legacyTransformValue JSVal.undefined MetricType.cpu = LegacyVal.undefined ∧
    (∀ l₁ l₂ : List RawPoint,
        l₁.map (fun p => (p.timeStamp, p.average)) = l₂.map (fun p => (p.timeStamp, p.average)) →
        legacyNormalize l₁ metricType = legacyNormalize l₂ metricType) := by
  refine ⟨?_, ?_, ?_, rfl, rfl, ?_⟩
  · intro p
    by_cases h : p.average = JSVal.null <;> simp [legacyNormalize, h]
  · intro l₁ l₂
    simp [legacyNormalize, List.filter_append]
  · intro p h
    simp [legacyNormalize, h]
  · intro l₁
    induction l₁ with
    | nil =>
        intro l₂ h
        cases l₂ with
        | nil => rfl
        | cons b t₂ => simp at h
    | cons a t ihl =>
        intro l₂ h
        cases l₂ with
        | nil => simp at h
        | cons b t₂ =>
            simp only [List.map_cons, List.cons.injEq, Prod.mk.injEq] at h
            obtain ⟨⟨hts, hav⟩, ht⟩ := h
            have ht' := ihl t₂ ht
            simp only [legacyNormalize] at ht' ⊢
            rw [List.filter_cons, List.filter_cons]
            by_cases hn : b.average = JSVal.null
            · simpa [hn, hav] using ht'
            · simpa [hn, hav, hts] using ht'

/-- Every provider-native name in the configuration table is non-empty,
so a successful two-level lookup is never falsy. -/
theorem metricLookup_ne_empty (rt : String) (mt : MetricType) (s : String)
    (h : lookupMetricName rt mt = some s) : s ≠ "" := by
  intro hs
  subst hs
  by_cases h1 : rt = "Microsoft.Compute/virtualMachines"
  · subst h1; revert h; cases mt <;> decide
  · by_cases h2 : rt = "Microsoft.DBforMySQL/flexibleServers"
    · subst h2; revert h; cases mt <;> decide
    · rw [lookupMetricName,
        show metricNamesForResourceType.lookup rt = none by
          simp [metricNamesForResourceType, List.lookup,
            beq_eq_false_iff_ne.mpr h1, beq_eq_false_iff_ne.mpr h2]] at h
      simp at h

/-- A successful two-level lookup makes `mapMetricName` return exactly the
configured string. -/
theorem mapMetricName_ok (rt : String) (mt : MetricType) (s : String)
    (h : lookupMetricName rt mt = some s) :
    mapMetricName (some rt) mt = .ok s := by
  have heq : mapMetricName (some rt) mt =
      match lookupMetricName rt mt with
      | none => .exited 1
      | some metric => if metric = "" then .exited 1 else .ok metric := rfl
  rw [heq, h]
  simp [metricLookup_ne_empty rt mt s h]

/-- A failed two-level lookup makes `mapMetricName` exit the process. -/
theorem mapMetricName_err (rt : String) (mt : MetricType)
    (h : lookupMetricName rt mt = none) :
    mapMetricName (some rt) mt = .exited 1 := by
  have heq : mapMetricName (some rt) mt =
      match lookupMetricName rt mt with
      | none => .exited 1
      | some metric => if metric = "" then .exited 1 else .ok metric := rfl
  rw [heq, h]

/-- `mapMetricName` either returns a name or exits with code 1. -/
theorem mapMetricName_cases (rtOpt : Option String) (mt : MetricType) :
    (∃ s, mapMetricName rtOpt mt = .ok s) ∨ mapMetricName rtOpt mt = .exited 1 := by
  rw [mapMetricName]
  rcases ((metricNamesForResourceType.lookup (rtOpt.getD defaultResourceType)).getD []).lookup mt
    with _ | s
  · exact Or.inr rfl
  · by_cases hs : s = ""
    · exact Or.inr (by simp [hs])
    · exact Or.inl ⟨s, by simp [hs]⟩

/-- A fetch either exits with code 1 or produces a (possibly null)
series. -/
theorem getTimeSeriesRun_cases (res : ExecResult) (parse : String → Payload) :
    getTimeSeriesRun res parse = .exited 1 ∨
    ∃ ts, getTimeSeriesRun res parse = .ok ts := by
  rw [getTimeSeriesRun, execOrFailAsync]
  by_cases h : res.code ≠ 0
  · simp [h]
  · simp only [h, if_false]
    rcases getTimeSeriesCore (parse res.stdout) with e | ts
    · exact Or.inl rfl
    · exact Or.inr ⟨ts, rfl⟩

/-- If any resource's metrics-query subprocess exits non-zero, the whole
fan-out ends in `process.exit(1)`. -/
theorem fetchAll_fail :
    ∀ (vms : List (Resource × ExecResult)) (parse : String → Payload),
      (∃ p ∈ vms, p.2.code ≠ 0) → fetchAll vms parse = .exited 1 := by
  intro vms
  induction vms with
  | nil =>
      intro parse h
      obtain ⟨p, hp, _⟩ := h
      exact absurd hp (List.not_mem_nil _)
  | cons x rest ih =>
      intro parse h
      obtain ⟨p, hp, hcode⟩ := h
      rcases List.mem_cons.mp hp with rfl | hp'
      · have : getTimeSeriesRun p.2 parse = .exited 1 := by
          rw [getTimeSeriesRun, execOrFailAsync]
          simp [hcode]
        rw [show fetchAll (p :: rest) parse =
            match getTimeSeriesRun p.2 parse with
            | .exited c => .exited c
            | .ok ts =>
                match fetchAll rest parse with
                | .exited c => .exited c
                | .ok l => .ok ((p.1, ts) :: l) from rfl, this]
      · rcases getTimeSeriesRun_cases x.2 parse with hx | ⟨ts, hx⟩
        · rw [show fetchAll (x :: rest) parse =
              match getTimeSeriesRun x.2 parse with
              | .exited c => .exited c
              | .ok ts =>
                  match fetchAll rest parse with
                  | .exited c => .exited c
                  | .ok l => .ok ((x.1, ts) :: l) from rfl, hx]
        · rw [show fetchAll (x :: rest) parse =
              match getTimeSeriesRun x.2 parse with
              | .exited c => .exited c
              | .ok ts =>
                  match fetchAll rest parse with
                  | .exited c => .exited c
                  | .ok l => .ok ((x.1, ts) :: l) from rfl, hx,
            ih parse ⟨p, hp', hcode⟩]

/-- A run of the aggregation loop in which no surviving entry writes the
key `k` leaves the map unchanged at `k`. -/
theorem buildFrom_no_writer (metricType : MetricType) (k : String) :
    ∀ (results : List (Resource × Option (List RawPoint)))
      (m : String → Option (List (String × ℚ))),
      (∀ x ∈ results, x.1.name = k → x.2 = none) →
      buildFrom m results metricType k = m k := by
  intro results
  induction results with
  | nil => intro m _; rfl
  | cons x rest ih =>
      intro m h
      match hx : x.2 with
      | none =>
          have hstep : buildFrom m (x :: rest) metricType = buildFrom m rest metricType := by
            simp [buildFrom, hx]
          rw [hstep]
          exact ih m (fun y hy hk => h y (List.mem_cons_of_mem _ hy) hk)
      | some raw =>
          have hname : ¬ x.1.name = k := fun hk => by
            have := h x (List.mem_cons_self _ _) hk
            rw [hx] at this; exact Option.noConfusion this
          have hstep : buildFrom m (x :: rest) metricType
              = buildFrom (writeLabel m x.1.name (normalizeSeries raw metricType))
                  rest metricType := by
            simp [buildFrom, hx]
          rw [hstep, ih _ (fun y hy hk => h y (List.mem_cons_of_mem _ hy) hk)]
          simp only [writeLabel]
          rw [if_neg (fun h' => hname h'.symm)]

/-- When resource names are pairwise distinct, the unique resource whose
fetch produced `raw` ends up mapped to the normalization of `raw`. -/
theorem buildFrom_writer (metricType : MetricType) :
    ∀ (results : List (Resource × Option (List RawPoint)))
      (m : String → Option (List (String × ℚ)))
      (r : Resource) (raw : List RawPoint),
      (results.map (fun x => x.1.name)).Nodup →
      (r, some raw) ∈ results →
      buildFrom m results metricType r.name = some (normalizeSeries raw metricType) := by
  intro results
  induction results with
  | nil => intro m r raw _ hmem; exact absurd hmem (List.not_mem_nil _)
  | cons x rest ih =>
      intro m r raw hnd hmem
      simp only [List.map_cons, List.nodup_cons] at hnd
      rcases List.mem_cons.mp hmem with rfl | hmem'
      · have hrest : ∀ y ∈ rest, y.1.name = r.name → y.2 = none := by
          intro y hy hk
          exact absurd (hk ▸ List.mem_map_of_mem (fun z => z.1.name) hy) hnd.1
        have hstep : buildFrom m ((r, some raw) :: rest) metricType
            = buildFrom (writeLabel m r.name (normalizeSeries raw metricType))
                rest metricType := by
          simp [buildFrom]
        rw [hstep, buildFrom_no_writer metricType r.name rest _ hrest]
        simp [writeLabel]
      · match hx : x.2 with
        | none =>
            have hstep : buildFrom m (x :: rest) metricType = buildFrom m rest metricType := by
              simp [buildFrom, hx]
            rw [hstep]
            exact ih m r raw hnd.2 hmem'
        | some raw' =>
            have hstep : buildFrom m (x :: rest) metricType
                = buildFrom (writeLabel m x.1.name (normalizeSeries raw' metricType))
                    rest metricType := by
              simp [buildFrom, hx]
            rw [hstep]
            exact ih _ r raw hnd.2 hmem'

/-- The post-completion progress events from counter `c` over a completion
order are `(c+1, total), (c+2, total), …`, one per completed fetch. -/
theorem progressSteps_eq (total : Nat) :
    ∀ (order : List Resource) (c : Nat),
      progressSteps total c order
        = (List.range order.length).map (fun i => (c + i + 1, total)) := by
  intro order
  induction order with
  | nil => intro c; rfl
  | cons v rest ih =>
      intro c
      rw [progressSteps, ih (c + 1), List.length_cons, List.range_succ_eq_map]
      simp only [List.map_cons, List.map_map, Nat.add_zero, Function.comp]
      congr 1
      apply List.map_congr_left
      intro i _
      simp only [Function.comp_apply, Prod.mk.injEq, and_true]
      omega

/-- C5: every `(resourceType, metric)` pair present in the configuration
table resolves to exactly the configured provider-native string (all five
pairs enumerated, and in general any successful table lookup); a pair
whose resource type or metric is absent from the table makes
`mapMetricName` fail with the unsupported-metric exit, and a full run then
exits before any provider invocation — its outcome is `exited 1` for
every possible listing/fetch subprocess behavior. -/
theorem mapMetricName_spec :
    mapMetricName (some "Microsoft.Compute/virtualMachines") MetricType.cpu
      = .ok "Percentage CPU" ∧
    mapMetricName (some "Microsoft.Compute/virtualMachines") MetricType.ram
      = .ok "Available Memory Bytes" ∧
    mapMetricName (some "Microsoft.DBforMySQL/flexibleServers") MetricType.cpu
      = .ok "cpu_percent" ∧
    mapMetricName (some "Microsoft.DBforMySQL/flexibleServers") MetricType.memory_percent
      = .ok "memory_percent" ∧
    mapMetricName (some "Microsoft.DBforMySQL/flexibleServers") MetricType.disk
      = .ok "storage_percent" ∧
    (∀ (rt : String) (mt : MetricType) (s : String),
        lookupMetricName rt mt = some s → mapMetricName (some rt) mt = .ok s) ∧
    (∀ (rt : String) (mt : MetricType),
        lookupMetricName rt mt = none → mapMetricName (some rt) mt = .exited 1) ∧
    (∀ (rt : String) (mt : MetricType),
        lookupMetricName rt mt = none →
        ∀ (listRes : ExecResult) (parseList : String → List Resource)
          (filter : Option String) (test : String → String → Bool)
          (fetchExec : String → ExecResult) (parsePayload : String → Payload),
          executeRun (some rt) mt listRes parseList filter test fetchExec parsePayload
            = .exited 1) := by
  refine ⟨by decide, by decide, by decide, by decide, by decide,
    mapMetricName_ok, mapMetricName_err, ?_⟩
  intro rt mt h listRes parseList filter test fetchExec parsePayload
  rw [executeRun, mapMetricName_err rt mt h]

/-- C8: with an absent or empty `filter`, every listed resource is
included; with a non-empty pattern, a resource is included exactly when
the regular-expression test matches its name, the result being the
matching sublist of the listing in its original order; and a zero exit
code of the enumeration command yields exactly that filtered list. -/
theorem filterResources_spec (listed : List Resource) (test : String → String → Bool) :
    filterResources listed none test = listed ∧
    filterResources listed (some "") test = listed ∧
    (∀ p : String, p ≠ "" →
      filterResources listed (some p) test = listed.filter (fun r => test p r.name) ∧
      (∀ r : Resource,
        r ∈ filterResources listed (some p) test ↔ r ∈ listed ∧ test p r.name = true) ∧
      (filterResources listed (some p) test).Sublist listed) ∧
    (∀ (listRes : ExecResult) (parseList : String → List Resource)
        (filter : Option String),
      listRes.code = 0 →
      getVMIds listRes parseList filter test
        = .ok (filterResources (parseList listRes.stdout) filter test)) := by
  refine ⟨?_, ?_, ?_, ?_⟩
  · simp [filterResources, matchesFilter]
  · simp [filterResources, matchesFilter]
  · intro p hp
    have he : filterResources listed (some p) test
        = listed.filter (fun r => test p r.name) := by
      simp [filterResources, matchesFilter, hp]
    refine ⟨he, ?_, ?_⟩
    · intro r
      rw [he]
      simp [List.mem_filter]
    · rw [he]
      exact List.filter_sublist _
  · intro listRes parseList filter h
    simp [getVMIds, execOrFail, h]

/-- C9: the unguarded `timeseries.length` access in `getTimeSeries` is
total exactly under the precondition that the payload's `value` array is
non-empty and its first element carries a `timeseries` array; under that
precondition the fetch returns null exactly when `timeseries` is empty
and otherwise the `data` of its first element, while an empty `value`
array (or a first element without the field) reaches the access on
`undefined` and throws. -/
theorem getTimeSeriesCore_spec :
    (∀ (data : Payload) (entry : PayloadValueEntry) (ts : List TimeseriesEntry),
        data.value.head? = some entry → entry.timeseries = some ts →
        (getTimeSeriesCore data = .ok none ↔ ts = []) ∧
        (∀ (t : TimeseriesEntry) (rest : List TimeseriesEntry), ts = t :: rest →
          getTimeSeriesCore data = .ok (some t.data))) ∧
    (∀ data : Payload, data.value = [] →
        getTimeSeriesCore data = .error JsError.typeError) ∧
    (∀ (data : Payload) (entry : PayloadValueEntry),
        data.value.head? = some entry → entry.timeseries = none →
        getTimeSeriesCore data = .error JsError.typeError) := by
  refine ⟨?_, ?_, ?_⟩
  · intro data entry ts h1 h2
    constructor
    · simp only [getTimeSeriesCore, h1, h2]
      cases ts <;> simp
    · intro t rest h3
      subst h3
      simp [getTimeSeriesCore, h1, h2]
  · intro data h
    simp [getTimeSeriesCore, h]
  · intro data entry h1 h2
    simp [getTimeSeriesCore, h1, h2]

/-- C2: a payload whose first value entry carries an empty `timeseries`
array makes the fetch return null; a resource whose fetch returned null
contributes no entry to the output map (its name is absent, resource
names being distinct); and a resource whose fetch returned a series is
present in the map under its name with exactly the normalized series —
in particular, an empty normalization leaves the name mapped to the
empty sequence. -/
theorem executeData_nullEmpty_spec (metricType : MetricType) :
    (∀ (data : Payload) (entry : PayloadValueEntry),
        data.value.head? = some entry → entry.timeseries = some [] →
        getTimeSeriesCore data = .ok none) ∧
    (∀ (results : List (Resource × Option (List RawPoint))) (r : Resource),
        (results.map (fun x => x.1.name)).Nodup →
        (r, (none : Option (List RawPoint))) ∈ results →
        buildData results metricType r.name = none) ∧
    (∀ (results : List (Resource × Option (List RawPoint))) (r : Resource)
        (raw : List RawPoint),
        (results.map (fun x => x.1.name)).Nodup →
        (r, some raw) ∈ results →
        buildData results metricType r.name = some (normalizeSeries raw metricType)) ∧
    (∀ (results : List (Resource × Option (List RawPoint))) (r : Resource)
        (raw : List RawPoint),
        (results.map (fun x => x.1.name)).Nodup →
        (r, some raw) ∈ results →
        normalizeSeries raw metricType = [] →
        buildData results metricType r.name = some []) := by
  refine ⟨?_, ?_, ?_, ?_⟩
  · intro data entry h1 h2
    simp [getTimeSeriesCore, h1, h2]
  · intro results r hnd hmem
    have hinj := List.inj_on_of_nodup_map hnd
    have hnw : ∀ x ∈ results, x.1.name = r.name → x.2 = none := by
      intro x hx hk
      have hx2 : x = (r, (none : Option (List RawPoint))) := hinj hx hmem hk
      rw [hx2]
    exact buildFrom_no_writer metricType r.name results _ hnw
  · intro results r raw hnd hmem
    exact buildFrom_writer metricType results _ r raw hnd hmem
  · intro results r raw hnd hmem hempty
    rw [buildData, buildFrom_writer metricType results _ r raw hnd hmem, hempty]

/-- C6: any external invocation that exits with non-zero status is fatal
to the entire run — `execOrFail`/`execOrFailAsync` turn it into
`process.exit(1)`, a failing metrics query exits the fan-out, and a run
whose enumeration command or any one of whose fetch commands exits
non-zero ends in `exited 1` with no result map and no per-resource
recovery. -/
theorem failFast_spec :
    (∀ res : ExecResult, res.code ≠ 0 →
        execOrFail res = .exited 1 ∧ execOrFailAsync res = .exited 1) ∧
    (∀ (res : ExecResult) (parse : String → Payload), res.code ≠ 0 →
        getTimeSeriesRun res parse = .exited 1) ∧
    (∀ (vms : List (Resource × ExecResult)) (parse : String → Payload),
        (∃ p ∈ vms, p.2.code ≠ 0) → fetchAll vms parse = .exited 1) ∧
    (∀ (rtOpt : Option String) (mt : MetricType) (listRes : ExecResult)
        (parseList : String → List Resource) (filter : Option String)
        (test : String → String → Bool) (fetchExec : String → ExecResult)
        (parsePayload : String → Payload),
        listRes.code ≠ 0 →
        executeRun rtOpt mt listRes parseList filter test fetchExec parsePayload
          = .exited 1) ∧
    (∀ (rtOpt : Option String) (mt : MetricType) (listRes : ExecResult)
        (parseList : String → List Resource) (filter : Option String)
        (test : String → String → Bool) (fetchExec : String → ExecResult)
        (parsePayload : String → Payload) (vms : List Resource),
        getVMIds listRes parseList filter test = .ok vms →
        (∃ v ∈ vms, (fetchExec v.id).code ≠ 0) →
        executeRun rtOpt mt listRes parseList filter test fetchExec parsePayload
          = .exited 1) := by
  refine ⟨?_, ?_, fetchAll_fail, ?_, ?_⟩
  · intro res h
    constructor <;> simp [execOrFail, execOrFailAsync, h]
  · intro res parse h
    rw [getTimeSeriesRun, execOrFailAsync]
    simp [h]
  · intro rtOpt mt listRes parseList filter test fetchExec parsePayload h
    rcases mapMetricName_cases rtOpt mt with ⟨s, hm⟩ | hm <;>
      simp [executeRun, hm, getVMIds, execOrFail, h]
  · intro rtOpt mt listRes parseList filter test fetchExec parsePayload vms hvms hfail
    rcases mapMetricName_cases rtOpt mt with ⟨s, hm⟩ | hm
    · obtain ⟨v, hv, hcode⟩ := hfail
      have : fetchAll (vms.map (fun vm => (vm, fetchExec vm.id))) parsePayload
          = .exited 1 :=
        fetchAll_fail _ parsePayload
          ⟨(v, fetchExec v.id), List.mem_map_of_mem _ hv, hcode⟩
      simp [executeRun, hm, hvms, this]
    · simp [executeRun, hm]

/-- C4: for any completion order that is a permutation of the listed
resources, the progress trace is the initial `(0, N)` event followed by
exactly `N` post-completion events whose completed count increases by
exactly 1 each call — the i-th post-completion event is `(i+1, N)` — and
every event has `total = N` with `completed ≤ total`. -/
theorem progressTrace_spec (vmIds completionOrder : List Resource)
    (h : completionOrder.Perm vmIds) :
    progressTrace vmIds completionOrder
      = (0, vmIds.length)
          :: (List.range vmIds.length).map (fun i => (i + 1, vmIds.length)) ∧
    (progressTrace vmIds completionOrder).tail.length = vmIds.length ∧
    (∀ i : Nat, i < vmIds.length →
      (progressTrace vmIds completionOrder).tail[i]? = some (i + 1, vmIds.length)) ∧
    (∀ pr ∈ progressTrace vmIds completionOrder,
      pr.1 ≤ pr.2 ∧ pr.2 = vmIds.length) := by
  have hlen : completionOrder.length = vmIds.length := h.length_eq
  have htr : progressTrace vmIds completionOrder
      = (0, vmIds.length)
          :: (List.range vmIds.length).map (fun i => (i + 1, vmIds.length)) := by
    rw [progressTrace, progressSteps_eq, hlen]
    simp
  refine ⟨htr, ?_, ?_, ?_⟩
  · rw [htr]; simp
  · intro i hi
    rw [htr]
    simp [hi]
  · intro pr hpr
    rw [htr] at hpr
    rcases List.mem_cons.mp hpr with rfl | hpr'
    · exact ⟨Nat.zero_le _, rfl⟩
    · obtain ⟨i, hi, rfl⟩ := List.mem_map.mp hpr'
      have : i < vmIds.length := List.mem_range.mp hi
      exact ⟨by omega, rfl⟩

/-- C4 witness: a two-resource run whose fetches complete in reverse
listing order still produces the trace `(0,2), (1,2), (2,2)`. -/
theorem progressTrace_spec_witness :
    progressTrace [⟨"ida", "A"⟩, ⟨"idb", "B"⟩] [⟨"idb", "B"⟩, ⟨"ida", "A"⟩]
      = (0, ([⟨"ida", "A"⟩, ⟨"idb", "B"⟩] : List Resource).length)
          :: (List.range ([⟨"ida", "A"⟩, ⟨"idb", "B"⟩] : List Resource).length).map
              (fun i => (i + 1, ([⟨"ida", "A"⟩, ⟨"idb", "B"⟩] : List Resource).length)) :=
  (progressTrace_spec [⟨"ida", "A"⟩, ⟨"idb", "B"⟩] [⟨"idb", "B"⟩, ⟨"ida", "A"⟩]
    (by decide)).1

end TsaAz
